import Mathlib

/-!
Shallow embedding of the p5-tsboilerplate repository core:
the `Vector` math class, the `Renderer` canvas facade (modelled as a
trace of drawing-context commands), and the `Helper.map` range-remap
utility.  JavaScript numbers are modelled by real numbers (`ℝ`) for the
geometric code and by rationals (`ℚ`) for the purely arithmetic
`Helper.map`; the JavaScript `NaN` result of `angleBetween` is modelled
by `Option ℝ` with `none` standing for `NaN`; a possibly missing
(`undefined`) component of a duck-typed vector argument is modelled by
`Option ℝ` with `none` standing for a missing component.
-/

namespace P5

/-- The JavaScript function Math.atan2(y, x), modelled via the complex
argument: for real x, y, Math.atan2(y, x) is the argument of x + y i,
valued in the interval Ioc (-pi) pi, with atan2 0 0 = 0. -/
noncomputable def atan2 (y x : ℝ) : ℝ := Complex.arg (x + y * Complex.I)

/-- The Vector class of src/Math/Vector.ts: three numeric components. -/
structure Vector where
  x : ℝ
  y : ℝ
  z : ℝ

/-- A duck-typed argument to add/sub/dot: a JavaScript object whose
components may be missing (undefined); `none` models a missing (or
non-numeric, i.e. NaN) component, which the source coerces to 0 via
the expression c || 0. -/
structure VecArg where
  x : Option ℝ
  y : Option ℝ
  z : Option ℝ

/-- The JavaScript coercion c || 0 applied to a possibly missing
numeric component: a missing component becomes 0, a present real
number is kept (0 || 0 is 0 as well). -/
def orZero (o : Option ℝ) : ℝ := o.getD 0

/-- View a full Vector as an argument with all components present. -/
def Vector.toArg (v : Vector) : VecArg := ⟨some v.x, some v.y, some v.z⟩

/-- Fill the missing components of an argument with 0, producing the
full Vector the source effectively operates on. -/
def VecArg.toVector (p : VecArg) : Vector := ⟨orZero p.x, orZero p.y, orZero p.z⟩

/-- Vector.add: this.x += vector.x || 0 (and likewise y, z). -/
def Vector.add (v : Vector) (w : VecArg) : Vector :=
  ⟨v.x + orZero w.x, v.y + orZero w.y, v.z + orZero w.z⟩

/-- Vector.sub: this.x -= vector.x || 0 (and likewise y, z). -/
def Vector.sub (v : Vector) (w : VecArg) : Vector :=
  ⟨v.x - orZero w.x, v.y - orZero w.y, v.z - orZero w.z⟩

/-- Vector.mult: multiplies every component by the scalar. -/
def Vector.mult (v : Vector) (scalar : ℝ) : Vector :=
  ⟨v.x * scalar, v.y * scalar, v.z * scalar⟩

/-- Vector.dot: this.x * (vector.x || 0) + y * (vector.y || 0) + z * (vector.z || 0). -/
def Vector.dot (v : Vector) (w : VecArg) : ℝ :=
  v.x * orZero w.x + v.y * orZero w.y + v.z * orZero w.z

/-- Vector.cross: the right-handed 3D cross product, returned as a new Vector. -/
def Vector.cross (v w : Vector) : Vector :=
  ⟨v.y * w.z - v.z * w.y, v.z * w.x - v.x * w.z, v.x * w.y - v.y * w.x⟩

/-- Vector.magnitudeSquared: x ** 2 + y ** 2 + z ** 2. -/
def Vector.magnitudeSquared (v : Vector) : ℝ := v.x ^ 2 + v.y ^ 2 + v.z ^ 2

/-- Vector.magnitude: Math.sqrt(this.magnitudeSquared()). -/
noncomputable def Vector.magnitude (v : Vector) : ℝ := Real.sqrt v.magnitudeSquared

/-- Vector.normalise: if the magnitude is nonzero, multiply by its
inverse; otherwise leave the components untouched; the receiver (here:
the resulting state of the mutated vector) is returned. -/
noncomputable def Vector.normalise (v : Vector) : Vector :=
  if v.magnitude ≠ 0 then v.mult (1 / v.magnitude) else v

/-- Vector.setMag: this.normalise().mult(magnitude). -/
noncomputable def Vector.setMag (v : Vector) (magnitude : ℝ) : Vector :=
  (v.normalise).mult magnitude

/-- Vector.heading: Math.atan2(this.y, this.x). -/
noncomputable def Vector.heading (v : Vector) : ℝ := atan2 v.y v.x

/-- Vector.setHeading: x := m cos(angle), y := m sin(angle) where m is
the (3D) magnitude; z is not touched. -/
noncomputable def Vector.setHeading (v : Vector) (angle : ℝ) : Vector :=
  ⟨v.magnitude * Real.cos angle, v.magnitude * Real.sin angle, v.z⟩

/-- Vector.rotate: newHeading := heading + angle; mag := magnitude;
x := cos(newHeading) * mag, y := sin(newHeading) * mag; z is not touched. -/
noncomputable def Vector.rotate (v : Vector) (angle : ℝ) : Vector :=
  ⟨Real.cos (v.heading + angle) * v.magnitude,
   Real.sin (v.heading + angle) * v.magnitude, v.z⟩

/-- Vector.angleBetween: NaN (modelled as none) when the product of the
squared magnitudes is 0, otherwise atan2(|u|, this.dot(vector)) times
Math.sign(u.z || 1), where u is the cross product. -/
noncomputable def Vector.angleBetween (v w : Vector) : Option ℝ :=
  if v.magnitudeSquared * w.magnitudeSquared = 0 then none
  else
    some (atan2 (v.cross w).magnitude (v.dot w.toArg) *
      Real.sign (if (v.cross w).z = 0 then 1 else (v.cross w).z))

/-- Vector.copy: a new Vector with the same three components. -/
def Vector.copy (v : Vector) : Vector := ⟨v.x, v.y, v.z⟩

/-- Vector.set: overwrite all three components. -/
def Vector.set (_v : Vector) (x y z : ℝ) : Vector :=
  ⟨x, y, z⟩

/-- Vector.equals: exact component-wise equality. -/
def Vector.equals (v w : Vector) : Prop := v.x = w.x ∧ v.y = w.y ∧ v.z = w.z

/-- Vector.dist: copies the argument, subtracts the receiver from the
copy and takes the magnitude of the result. -/
noncomputable def Vector.dist (v w : Vector) : ℝ :=
  ((w.copy).sub v.toArg).magnitude

namespace Helper

/-- Helper.map of src/Utilities/Helper.ts: linear range remap with an
optional clamp to the output range (all inputs in the claims are
rational, so the arithmetic is modelled over ℚ). -/
def map (n start1 stop1 start2 stop2 : ℚ) (withinBounds : Bool) : ℚ :=
  let newVal := (n - start1) / (stop1 - start1) * (stop2 - start2) + start2
  if !withinBounds then newVal
  else if start2 < stop2 then max (min newVal stop2) start2
  else max (min newVal start2) stop2

end Helper

/-- The squared magnitude is a sum of squares, hence nonnegative. -/
lemma Vector.magnitudeSquared_nonneg (v : Vector) : 0 ≤ v.magnitudeSquared := by
  unfold Vector.magnitudeSquared; positivity

/-- The magnitude is a square root, hence nonnegative. -/
lemma Vector.magnitude_nonneg (v : Vector) : 0 ≤ v.magnitude :=
  Real.sqrt_nonneg _

/-- The magnitude vanishes exactly when the squared magnitude does. -/
lemma Vector.magnitude_eq_zero_iff (v : Vector) :
    v.magnitude = 0 ↔ v.magnitudeSquared = 0 := by
  unfold Vector.magnitude
  rw [Real.sqrt_eq_zero']
  constructor
  · intro h; exact le_antisymm h v.magnitudeSquared_nonneg
  · intro h; exact le_of_eq h

/-- The squared magnitude vanishes exactly when all components vanish. -/
lemma Vector.magnitudeSquared_eq_zero_iff (v : Vector) :
    v.magnitudeSquared = 0 ↔ v.x = 0 ∧ v.y = 0 ∧ v.z = 0 := by
  unfold Vector.magnitudeSquared
  constructor
  · intro h
    refine ⟨?_, ?_, ?_⟩ <;>
      nlinarith [sq_nonneg v.x, sq_nonneg v.y, sq_nonneg v.z]
  · rintro ⟨hx, hy, hz⟩
    rw [hx, hy, hz]; ring

/-- Scaling a vector scales its magnitude by the absolute value of the scalar. -/
lemma Vector.magnitude_mult (v : Vector) (k : ℝ) :
    (v.mult k).magnitude = |k| * v.magnitude := by
  unfold Vector.magnitude Vector.magnitudeSquared Vector.mult
  simp only
  rw [show (v.x * k) ^ 2 + (v.y * k) ^ 2 + (v.z * k) ^ 2
        = k ^ 2 * (v.x ^ 2 + v.y ^ 2 + v.z ^ 2) by ring,
    Real.sqrt_mul (sq_nonneg k), Real.sqrt_sq_eq_abs]

/-- Claim C5: normalise mutates the receiver in place: on nonzero
magnitude it scales it to unit length; on zero magnitude it leaves
every component unchanged (the result is the unmodified receiver),
and no error is raised (the function is total). -/
theorem normalise_unit_or_noop (v : Vector) :
    (v.magnitude ≠ 0 → (v.normalise).magnitude = 1) ∧
      (v.magnitude = 0 → v.normalise = v) := by
  constructor
  · intro h
    have hpos : 0 < v.magnitude := lt_of_le_of_ne v.magnitude_nonneg (Ne.symm h)
    rw [Vector.normalise, if_pos h, Vector.magnitude_mult,
      abs_of_pos (by positivity : (0:ℝ) < 1 / v.magnitude)]
    field_simp
  · intro h
    rw [Vector.normalise, if_neg (by simpa using h)]

/-- Witness for C5 at the concrete vector (3, 4, 0). -/
theorem normalise_unit_or_noop_witness :
    (Vector.mk 3 4 0).magnitude ≠ 0 ∧
      ((Vector.mk 3 4 0).normalise).magnitude = 1 := by
  have h : (Vector.mk 3 4 0).magnitude ≠ 0 := by
    rw [Ne, Vector.magnitude_eq_zero_iff, Vector.magnitudeSquared]
    norm_num
  exact ⟨h, (normalise_unit_or_noop (Vector.mk 3 4 0)).1 h⟩

/-- Claim C6: setMag m is definitionally normalise followed by mult m,
and on a zero-magnitude vector it is the identity whatever m is. -/
theorem setMag_eq_normalise_mult (v : Vector) (m : ℝ) :
    v.setMag m = (v.normalise).mult m ∧
      (v.magnitude = 0 → v.setMag m = v) := by
  refine ⟨rfl, fun h => ?_⟩
  obtain ⟨hx, hy, hz⟩ :=
    (v.magnitudeSquared_eq_zero_iff).mp ((v.magnitude_eq_zero_iff).mp h)
  have hv : v.normalise = v := (normalise_unit_or_noop v).2 h
  cases v
  simp only at hx hy hz
  subst hx; subst hy; subst hz
  rw [Vector.setMag, hv, Vector.mult]
  simp

/-- Witness for C6 at the zero vector and m = 5. -/
theorem setMag_eq_normalise_mult_witness :
    (Vector.mk 0 0 0).magnitude = 0 ∧
      (Vector.mk 0 0 0).setMag 5 = Vector.mk 0 0 0 := by
  have h : (Vector.mk 0 0 0).magnitude = 0 := by
    rw [Vector.magnitude_eq_zero_iff, Vector.magnitudeSquared]
    norm_num
  exact ⟨h, (setMag_eq_normalise_mult (Vector.mk 0 0 0) 5).2 h⟩

/-- Claim C7: angleBetween returns NaN (modelled as none) whenever
either operand has zero magnitude, instead of raising an error. -/
theorem angleBetween_zero_magnitude_nan (v w : Vector)
    (h : v.magnitude = 0 ∨ w.magnitude = 0) :
    v.angleBetween w = none := by
  rw [Vector.angleBetween, if_pos]
  rcases h with h | h
  · rw [(v.magnitude_eq_zero_iff).mp h, zero_mul]
  · rw [(w.magnitude_eq_zero_iff).mp h, mul_zero]

/-- Witness for C7: the zero vector against (1, 0, 0). -/
theorem angleBetween_zero_magnitude_nan_witness :
    (Vector.mk 0 0 0).magnitude = 0 ∧
      (Vector.mk 0 0 0).angleBetween (Vector.mk 1 0 0) = none := by
  have h : (Vector.mk 0 0 0).magnitude = 0 := by
    rw [Vector.magnitude_eq_zero_iff, Vector.magnitudeSquared]
    norm_num
  exact ⟨h, angleBetween_zero_magnitude_nan _ _ (Or.inl h)⟩

/-- The heading of a vector after rotate is computed from the x and y
components that rotate wrote. -/
lemma Vector.heading_rotate (v : Vector) (a : ℝ) :
    (v.rotate a).heading =
      Complex.arg ((v.magnitude : ℂ) *
        (Real.cos (v.heading + a) + Real.sin (v.heading + a) * Complex.I)) := by
  unfold Vector.rotate Vector.heading atan2
  simp only
  congr 1
  push_cast
  ring

/-- Counterexample to claim C2 as stated: rotate recomputes x and y
from the full three-dimensional magnitude but never touches z, so for
the vector (0, 0, 1) (magnitude 1) a rotation by pi produces
(-1, 0, 1), whose magnitude is sqrt 2, not 1. -/
theorem rotate_magnitude_counterexample :
    ((Vector.mk 0 0 1).rotate Real.pi).magnitude ≠ (Vector.mk 0 0 1).magnitude := by
  have hhead : (Vector.mk 0 0 1).heading = 0 := by
    simp [Vector.heading, atan2, Complex.arg_zero]
  have hmag : (Vector.mk 0 0 1).magnitude = 1 := by
    simp [Vector.magnitude, Vector.magnitudeSquared]
  have hrot : (Vector.mk 0 0 1).rotate Real.pi = Vector.mk (-1) 0 1 := by
    unfold Vector.rotate
    rw [hhead, hmag, zero_add, Real.cos_pi, Real.sin_pi]
    norm_num
  rw [hrot, hmag]
  have h2 : (Vector.mk (-1) 0 1).magnitude = Real.sqrt 2 := by
    unfold Vector.magnitude Vector.magnitudeSquared
    norm_num
  rw [h2]
  intro h
  have h1 : (1:ℝ) < Real.sqrt 2 := by
    have := Real.sqrt_lt_sqrt (by norm_num : (0:ℝ) ≤ 1) (by norm_num : (1:ℝ) < 2)
    simpa using this
  rw [h] at h1
  exact lt_irrefl _ h1

/-- Claim C2 (amended): for a genuinely two-dimensional vector (z = 0)
of nonzero magnitude, rotate(a) adds a to the heading modulo 2 pi and
preserves the magnitude.  (As stated over all vectors the claim fails:
rotate does not preserve the magnitude when z is nonzero, and the
heading equation fails for the zero vector.) -/
theorem rotate_adds_heading_preserves_magnitude (v : Vector) (a : ℝ)
    (hz : v.z = 0) (hm : v.magnitude ≠ 0) :
    (((v.rotate a).heading : ℝ) : Real.Angle) = ((v.heading + a : ℝ) : Real.Angle) ∧
      (v.rotate a).magnitude = v.magnitude := by
  have hpos : 0 < v.magnitude := lt_of_le_of_ne v.magnitude_nonneg (Ne.symm hm)
  constructor
  · rw [Vector.heading_rotate, Complex.arg_real_mul _ hpos]
    have h := Complex.arg_cos_add_sin_mul_I_coe_angle ((v.heading + a : ℝ) : Real.Angle)
    rwa [Real.Angle.cos_coe, Real.Angle.sin_coe] at h
  · have hsq : (v.rotate a).magnitudeSquared = v.magnitude ^ 2 := by
      simp only [Vector.rotate, Vector.magnitudeSquared, hz]
      nlinarith [Real.sin_sq_add_cos_sq (v.heading + a)]
    have hstep : (v.rotate a).magnitude = Real.sqrt (v.magnitude ^ 2) := by
      rw [show (v.rotate a).magnitude
            = Real.sqrt ((v.rotate a).magnitudeSquared) from rfl, hsq]
    rw [hstep, Real.sqrt_sq v.magnitude_nonneg]

/-- Witness for C2 (amended) at the vector (1, 0, 0) and angle 1. -/
theorem rotate_adds_heading_preserves_magnitude_witness :
    (Vector.mk 1 0 0).z = 0 ∧ (Vector.mk 1 0 0).magnitude ≠ 0 ∧
      ((((Vector.mk 1 0 0).rotate 1).heading : ℝ) : Real.Angle) =
        (((Vector.mk 1 0 0).heading + 1 : ℝ) : Real.Angle) ∧
      ((Vector.mk 1 0 0).rotate 1).magnitude = (Vector.mk 1 0 0).magnitude := by
  have hz : (Vector.mk 1 0 0).z = 0 := rfl
  have hm : (Vector.mk 1 0 0).magnitude ≠ 0 := by
    rw [Ne, Vector.magnitude_eq_zero_iff, Vector.magnitudeSquared]
    norm_num
  obtain ⟨h1, h2⟩ := rotate_adds_heading_preserves_magnitude (Vector.mk 1 0 0) 1 hz hm
  exact ⟨hz, hm, h1, h2⟩

/-- Counterexample to claim C3 as stated: for the antiparallel unit
vectors (1,0,0) and (-1,0,0), both of nonzero magnitude, the cross
product is zero, the sign factor defaults to +1 in both orders, and
atan2(0, -1) is pi, so both angleBetween values are pi rather than
negations of each other. -/
theorem angleBetween_antisymmetry_counterexample :
    (Vector.mk 1 0 0).magnitude ≠ 0 ∧ (Vector.mk (-1) 0 0).magnitude ≠ 0 ∧
      (Vector.mk 1 0 0).angleBetween (Vector.mk (-1) 0 0) ≠
        Option.map (fun t => -t)
          ((Vector.mk (-1) 0 0).angleBetween (Vector.mk 1 0 0)) := by
  have hpi : atan2 0 (-1) = Real.pi := by
    unfold atan2
    rw [show ((-1 : ℝ) : ℂ) + (0 : ℝ) * Complex.I = -1 by push_cast; ring]
    exact Complex.arg_neg_one
  have hmagzero : (Vector.mk (0:ℝ) 0 0).magnitude = 0 := by
    simp [Vector.magnitude, Vector.magnitudeSquared]
  have h1 : (Vector.mk 1 0 0).angleBetween (Vector.mk (-1) 0 0) = some Real.pi := by
    rw [Vector.angleBetween,
      if_neg (by simp [Vector.magnitudeSquared])]
    have hc : (Vector.mk (1:ℝ) 0 0).cross (Vector.mk (-1) 0 0) = Vector.mk 0 0 0 := by
      simp [Vector.cross]
    have hd : (Vector.mk (1:ℝ) 0 0).dot (Vector.mk (-1:ℝ) 0 0).toArg = -1 := by
      simp [Vector.dot, Vector.toArg, orZero]
    rw [hc, hd, hmagzero, if_pos rfl, Real.sign_one, mul_one, hpi]
  have h2 : (Vector.mk (-1) 0 0).angleBetween (Vector.mk 1 0 0) = some Real.pi := by
    rw [Vector.angleBetween,
      if_neg (by simp [Vector.magnitudeSquared])]
    have hc : (Vector.mk (-1:ℝ) 0 0).cross (Vector.mk 1 0 0) = Vector.mk 0 0 0 := by
      simp [Vector.cross]
    have hd : (Vector.mk (-1:ℝ) 0 0).dot (Vector.mk (1:ℝ) 0 0).toArg = -1 := by
      simp [Vector.dot, Vector.toArg, orZero]
    rw [hc, hd, hmagzero, if_pos rfl, Real.sign_one, mul_one, hpi]
  refine ⟨?_, ?_, ?_⟩
  · rw [Ne, Vector.magnitude_eq_zero_iff, Vector.magnitudeSquared]; norm_num
  · rw [Ne, Vector.magnitude_eq_zero_iff, Vector.magnitudeSquared]; norm_num
  · rw [h1, h2]
    simp only [Option.map_some', ne_eq, Option.some.injEq]
    intro h
    have := Real.pi_pos
    linarith

/-- Claim C3 (amended): angleBetween is antisymmetric whenever the two
vectors have nonzero magnitude and the z-component of their cross
product is nonzero (when that z-component vanishes, e.g. for
antiparallel vectors, the sign factor defaults to +1 in both orders
and the two results coincide at pi instead of negating). -/
theorem angleBetween_antisymm_of_cross_z (v w : Vector)
    (hv : v.magnitude ≠ 0) (hw : w.magnitude ≠ 0) (hz : (v.cross w).z ≠ 0) :
    v.angleBetween w = Option.map (fun t => -t) (w.angleBetween v) := by
  have hv2 : v.magnitudeSquared ≠ 0 := fun h => hv ((v.magnitude_eq_zero_iff).mpr h)
  have hw2 : w.magnitudeSquared ≠ 0 := fun h => hw ((w.magnitude_eq_zero_iff).mpr h)
  have hzz : (w.cross v).z = -(v.cross w).z := by
    simp only [Vector.cross]
    ring
  have hz' : (w.cross v).z ≠ 0 := by
    rw [hzz]
    exact neg_ne_zero.mpr hz
  have hmagc : (w.cross v).magnitude = (v.cross w).magnitude := by
    show Real.sqrt ((w.cross v).magnitudeSquared)
        = Real.sqrt ((v.cross w).magnitudeSquared)
    congr 1
    simp only [Vector.cross, Vector.magnitudeSquared]
    ring
  have hdot : w.dot v.toArg = v.dot w.toArg := by
    simp only [Vector.dot, Vector.toArg, orZero, Option.getD_some]
    ring
  rw [Vector.angleBetween, Vector.angleBetween,
    if_neg (mul_ne_zero hv2 hw2), if_neg (mul_ne_zero hw2 hv2),
    Option.map_some']
  congr 1
  rw [if_neg hz, if_neg hz', hmagc, hdot, hzz, Real.sign_neg]
  ring

/-- Witness for C3 (amended) at (1,0,0) and (0,1,0), whose cross
product is (0,0,1). -/
theorem angleBetween_antisymm_of_cross_z_witness :
    (Vector.mk 1 0 0).magnitude ≠ 0 ∧ (Vector.mk 0 1 0).magnitude ≠ 0 ∧
      ((Vector.mk 1 0 0).cross (Vector.mk 0 1 0)).z ≠ 0 ∧
      (Vector.mk 1 0 0).angleBetween (Vector.mk 0 1 0) =
        Option.map (fun t => -t)
          ((Vector.mk 0 1 0).angleBetween (Vector.mk 1 0 0)) := by
  have hv : (Vector.mk 1 0 0).magnitude ≠ 0 := by
    rw [Ne, Vector.magnitude_eq_zero_iff, Vector.magnitudeSquared]; norm_num
  have hw : (Vector.mk 0 1 0).magnitude ≠ 0 := by
    rw [Ne, Vector.magnitude_eq_zero_iff, Vector.magnitudeSquared]; norm_num
  have hz : ((Vector.mk 1 0 0).cross (Vector.mk 0 1 0)).z ≠ 0 := by
    simp [Vector.cross]
  exact ⟨hv, hw, hz, angleBetween_antisymm_of_cross_z _ _ hv hw hz⟩

/-- Claim C8: add, sub and dot treat missing components of the
argument as 0: applying them to a partially-specified argument gives
the same result as applying them to the full Vector obtained by
filling the missing components with 0; in particular
v.copy().add(\x7bx:5\x7d) equals v.copy().add(new Vector(5,0,0)). -/
theorem add_sub_dot_missing_components (v : Vector) (p : VecArg) :
    v.add p = v.add (p.toVector).toArg ∧
      v.sub p = v.sub (p.toVector).toArg ∧
      v.dot p = v.dot (p.toVector).toArg ∧
      (v.copy).add ⟨some 5, none, none⟩ = (v.copy).add (Vector.mk 5 0 0).toArg :=
  ⟨rfl, rfl, rfl, rfl⟩

/-- The in-place mutating operations of the Vector class, as actions on
the state of one vector object. -/
inductive Mutation where
  | add (p : VecArg)
  | sub (p : VecArg)
  | mult (scalar : ℝ)
  | normalise
  | setMag (m : ℝ)
  | setHeading (angle : ℝ)
  | rotate (angle : ℝ)
  | set (x y z : ℝ)

/-- The effect of an in-place operation on the state of the vector it
is invoked on. -/
noncomputable def Mutation.apply (m : Mutation) (v : Vector) : Vector :=
  match m with
  | .add p => v.add p
  | .sub p => v.sub p
  | .mult s => v.mult s
  | .normalise => v.normalise
  | .setMag k => v.setMag k
  | .setHeading a => v.setHeading a
  | .rotate a => v.rotate a
  | .set x y z => v.set x y z

/-- A heap of Vector objects; object references are indices into the
heap, so that the freshness of the object allocated by copy (new
Vector(...)) is observable. -/
abbrev Store := List Vector

/-- The call ref.copy() on the object at index i of the heap: reads the
object and allocates a fresh Vector with the same components at the end
of the heap, returning the new heap and the reference to the copy;
none when the reference is dangling. -/
def copyAt (s : Store) (i : ℕ) : Option (Store × ℕ) :=
  (s[i]?).map fun v => (s ++ [v.copy], s.length)

/-- An in-place Vector method invoked on the object at index j of the
heap: the object at j is replaced by the mutated state, every other
object is untouched. -/
noncomputable def mutateAt (s : Store) (j : ℕ) (m : Mutation) : Store :=
  match s[j]? with
  | some v => s.set j (m.apply v)
  | none => s

/-- Claim C9: copy returns a new, independent Vector: the copy has
exactly the components of the original (so equals holds between them),
and applying any in-place operation to the copy leaves the original
object unchanged on the heap. -/
theorem copy_fresh_and_independent (s : Store) (i : ℕ) (h : i < s.length) :
    ∃ s₁ j, copyAt s i = some (s₁, j) ∧
      (∃ orig cp, s₁[i]? = some orig ∧ s₁[j]? = some cp ∧ cp.equals orig) ∧
      ∀ m : Mutation, (mutateAt s₁ j m)[i]? = s[i]? := by
  refine ⟨s ++ [(s[i]).copy], s.length, ?_, ?_, ?_⟩
  · rw [copyAt, List.getElem?_eq_getElem h, Option.map_some']
  · refine ⟨s[i], (s[i]).copy, ?_, ?_, ⟨rfl, rfl, rfl⟩⟩
    · rw [List.getElem?_append_left h, List.getElem?_eq_getElem h]
    · exact List.getElem?_concat_length s (s[i]).copy
  · intro m
    rw [mutateAt]
    rw [List.getElem?_concat_length s (s[i]).copy]
    simp only
    rw [List.getElem?_set_ne (by omega : s.length ≠ i),
      List.getElem?_append_left h]

/-- Witness for C9: a one-object heap holding (1, 2, 3). -/
theorem copy_fresh_and_independent_witness :
    0 < ([Vector.mk 1 2 3] : Store).length ∧
      (∃ s₁ j, copyAt [Vector.mk 1 2 3] 0 = some (s₁, j) ∧
        (∃ orig cp, s₁[0]? = some orig ∧ s₁[j]? = some cp ∧ cp.equals orig) ∧
        ∀ m : Mutation, (mutateAt s₁ j m)[0]? = ([Vector.mk 1 2 3] : Store)[0]?) :=
  ⟨by simp, copy_fresh_and_independent [Vector.mk 1 2 3] 0 (by simp)⟩

/-- Claim C4: Helper.map(5,0,10,0,100,true) = 50,
Helper.map(15,0,10,0,100,true) = 100 (clamped) and
Helper.map(15,0,10,0,100,false) = 150 (unclamped). -/
theorem map_concrete_scenarios :
    Helper.map 5 0 10 0 100 true = 50 ∧
      Helper.map 15 0 10 0 100 true = 100 ∧
      Helper.map 15 0 10 0 100 false = 150 := by
  refine ⟨?_, ?_, ?_⟩ <;> norm_num [Helper.map]

/-- A primitive call on the 2D drawing context, as issued by the
Renderer shape methods; a shape method is modelled by the trace of
context calls it performs. -/
inductive Cmd where
  | beginPath
  | closePath
  | moveTo (x y : ℝ)
  | lineTo (x y : ℝ)
  | stroke
  | fill

namespace Renderer

/-- Renderer.line of src/Drawing/Renderer.ts, exactly as written:
beginPath; moveTo(start.x, end.y); lineTo(end.x, end.y); stroke();
closePath(). -/
def line (start stop : Vector) : List Cmd :=
  [Cmd.beginPath, Cmd.moveTo start.x stop.y, Cmd.lineTo stop.x stop.y,
    Cmd.stroke, Cmd.closePath]

/-- The loop of Renderer.irregularPolygon: for i from 0 to n - 1, read
vertices[i] and issue lineTo(vertices[i].x, vertices[i].y); the index
access is modelled by the Option-returning list index, so the trace is
none as soon as an access is out of bounds. -/
def lineToLoop (vertices : List Vector) : ℕ → Option (List Cmd)
  | 0 => some []
  | n + 1 => do
      let rest ← lineToLoop vertices n
      let v ← vertices[n]?
      pure (rest ++ [Cmd.lineTo v.x v.y])

/-- Renderer.irregularPolygon: beginPath; moveTo(vertices[0].x,
vertices[0].y); the lineTo loop over all indices; fill(); stroke();
closePath().  The read of vertices[0] happens before the loop, so the
whole trace is none exactly when that first access (or a loop access)
is out of bounds. -/
def irregularPolygon (vertices : List Vector) : Option (List Cmd) := do
  let v0 ← vertices[0]?
  let ls ← lineToLoop vertices vertices.length
  pure ([Cmd.beginPath, Cmd.moveTo v0.x v0.y] ++ ls ++
    [Cmd.fill, Cmd.stroke, Cmd.closePath])

end Renderer

/-- Claim C1 (evaluation at the failing input): for start = (0,0,0)
and end = (1,1,0) the source issues moveTo(start.x, end.y) = moveTo(0,1)
rather than moveTo at the start point (0,0): the drawn segment is not
the segment between the two points. -/
theorem line_moveTo_uses_end_y :
    Renderer.line (Vector.mk 0 0 0) (Vector.mk 1 1 0) =
        [Cmd.beginPath, Cmd.moveTo 0 1, Cmd.lineTo 1 1,
          Cmd.stroke, Cmd.closePath] ∧
      Renderer.line (Vector.mk 0 0 0) (Vector.mk 1 1 0) ≠
        [Cmd.beginPath, Cmd.moveTo 0 0, Cmd.lineTo 1 1,
          Cmd.stroke, Cmd.closePath] := by
  constructor
  · rfl
  · intro h
    have h1 := congrArg (fun l => l[1]?) h
    simp [Renderer.line] at h1

/-- Every step of the lineTo loop stays in bounds as long as the loop
bound does not exceed the length of the vertex list. -/
lemma Renderer.lineToLoop_isSome (vertices : List Vector) :
    ∀ n, n ≤ vertices.length → ∃ l, Renderer.lineToLoop vertices n = some l := by
  intro n
  induction n with
  | zero => intro _; exact ⟨[], rfl⟩
  | succ k ih =>
      intro h
      obtain ⟨l, hl⟩ := ih (by omega)
      have hk : k < vertices.length := by omega
      refine ⟨l ++ [Cmd.lineTo (vertices.get ⟨k, hk⟩).x (vertices.get ⟨k, hk⟩).y], ?_⟩
      rw [Renderer.lineToLoop, hl, List.getElem?_eq_getElem hk]
      rfl

/-- Claim C10: the array accesses of irregularPolygon are in bounds
exactly for nonempty vertex lists: on any nonempty list every indexed
access succeeds and a trace is produced, while on the empty list the
initial read of vertices[0] already fails (the Option-valued index
yields none, so the whole trace is none). -/
theorem irregularPolygon_inbounds_iff_nonempty (vertices : List Vector) :
    (vertices ≠ [] → (Renderer.irregularPolygon vertices).isSome = true) ∧
      (vertices = [] → Renderer.irregularPolygon vertices = none) := by
  constructor
  · intro hne
    have hlen : 0 < vertices.length := List.length_pos.mpr hne
    obtain ⟨l, hl⟩ := Renderer.lineToLoop_isSome vertices vertices.length le_rfl
    rw [Renderer.irregularPolygon, List.getElem?_eq_getElem hlen, hl]
    rfl
  · rintro rfl
    rfl

/-- Witness for C10 at the one-vertex list [(0,0,0)] and at []. -/
theorem irregularPolygon_inbounds_iff_nonempty_witness :
    ([Vector.mk 0 0 0] ≠ ([] : List Vector)) ∧
      (Renderer.irregularPolygon [Vector.mk 0 0 0]).isSome = true ∧
      Renderer.irregularPolygon ([] : List Vector) = none := by
  have hne : [Vector.mk 0 0 0] ≠ ([] : List Vector) := by simp
  exact ⟨hne, (irregularPolygon_inbounds_iff_nonempty [Vector.mk 0 0 0]).1 hne,
    (irregularPolygon_inbounds_iff_nonempty ([] : List Vector)).2 rfl⟩

end P5
